import Mathlib

/-!
Verification of the multifil half-sarcomere model (hs.py, mf.py, tm.py).

This file gives a shallow embedding of the parts of the program that the
properties below speak about, and proves or refutes each property against
that embedding.

Conventions of the embedding:

* Python floats are modelled as exact numbers — `ℚ` where the logic only
  adds, compares and takes absolute values, and `ℝ` where the source uses
  transcendental functions (`**` with a real exponent).
* A Python function that can raise (`KeyError` from a dict lookup with a
  missing key, `IndexError` from indexing past the end of a list, a failed
  `assert`) is modelled as returning `Option`, with `Option.none` standing
  for the raised exception.
* Quantities that the surrounding simulation supplies to the code under
  study — calcium concentration, tropomyosin pool concentrations, the
  per-timestep transition probabilities derived from them, binding-site
  tension/location/bound-state, and the cross-bridge force fields — enter
  the definitions as explicit parameters, since the source reads them
  through back-references to its environment.
-/

namespace Multifil

/-! ## Tropomyosin site state machine (tm.py, class TmSite) -/

/-- The value returned by `TmSite._forward_backward`: the three strings
`"forward"`, `"backward"`, `"none"` of the source. -/
inductive TransWord where
  | forward
  | backward
  | stay
  deriving DecidableEq, Repr

/-- `TmSite._forward_backward(forward_p, backward_p, rand)` from tm.py:
`rand < forward_p` gives `"forward"`, else `rand > 1 - backward_p` gives
`"backward"`, else `"none"`. -/
def forward_backward (forward_p backward_p rand : ℚ) : TransWord :=
  if rand < forward_p then TransWord.forward
  else if rand > 1 - backward_p then TransWord.backward
  else TransWord.stay

/-- The eight per-timestep transition probabilities a `TmSite` computes as
`self._prob(self._rXY())` inside `transition`.  In the source each is
`1 - exp(-rate·Δt)` for the corresponding rate, which in turn depends on
calcium, pool concentrations and cooperativity; all of that is environment
to the transition logic, so the probabilities are carried as data here. -/
structure TmProbs where
  p12 : ℚ
  p14 : ℚ
  p23 : ℚ
  p21 : ℚ
  p34 : ℚ
  p32 : ℚ
  p41 : ℚ
  p43 : ℚ
  deriving Repr, DecidableEq

/-- `TmSite.transition` from tm.py, for a site in state `state` whose
binding site reports bound-state `bsBound`, with uniform draw `rand`.

Mirrors the source exactly:
* a site in state 3 whose binding site is bound returns at once
  ("can't transition if bound"), leaving the state at 3;
* otherwise `f, b` are the probabilities selected by the state
  (`(0,0)` when the state matches no branch);
* the draw picks `"forward"`/`"backward"`/`"none"` via `_forward_backward`;
* the state moves on the ring `(state+1) % 4` / `(state+3) % 4` / stays;
* the "TODO remove state skip" block: if the new state is 2 it is replaced
  through the dict `{"forward": 3, "backward": 1}[trans_word]`, which
  raises `KeyError` when `trans_word` is `"none"` — modelled as
  `Option.none`;
* the final `assert self.state in (0, 1, 2, 3)` is the last filter,
  a failure again modelled as `Option.none`.

The returned value is the state after the call. -/
def tmTransition (env : TmProbs) (state : ℕ) (bsBound : Bool) (rand : ℚ) :
    Option ℕ :=
  if state = 3 ∧ bsBound then some state
  else
    let fb : ℚ × ℚ :=
      if state = 0 then (env.p12, env.p14)
      else if state = 1 then (env.p23, env.p21)
      else if state = 2 then (env.p34, env.p32)
      else if state = 3 then (env.p41, env.p43)
      else (0, 0)
    let w := forward_backward fb.1 fb.2 rand
    let s1 : ℕ :=
      match w with
      | TransWord.forward => (state + 1) % 4
      | TransWord.backward => (state + 3) % 4
      | TransWord.stay => state
    let s2 : Option ℕ :=
      if s1 = 2 then
        match w with
        | TransWord.forward => some 3
        | TransWord.backward => some 1
        | TransWord.stay => Option.none
      else some s1
    s2.bind fun s => if s = 0 ∨ s = 1 ∨ s = 2 ∨ s = 3 then some s else Option.none

/-- The per-site data the chain-level code of tm.py reads: the kinetic
state, the axial location of the underlying binding site
(`TmSite.axial_location`), and the site's current cooperative span
(`TmSite.span`, a function of the chain's material constants and the
binding site's instantaneous tension, both environment during a pass). -/
structure TmSiteS where
  state : ℕ
  loc : ℚ
  span : ℚ
  deriving Repr, DecidableEq

/-- `TmSite.subject_to_cooperativity` from tm.py: true when any site of the
chain whose axial location is within this site's span is in state 2 (the
site itself is not excluded by the source). -/
def subject_to_cooperativity (chain : List TmSiteS) (s : TmSiteS) : Bool :=
  chain.any fun n => decide (|n.loc - s.loc| < s.span) && decide (n.state = 2)

/-- The inner loop body of `Tropomyosin._spread_activation` for one site
`center` found in state 2: every site within `center.span` of
`center.loc` whose state is not 2 has its state set to 1. -/
def spreadFrom (center : TmSiteS) (sites : List TmSiteS) : List TmSiteS :=
  sites.map fun n =>
    if |n.loc - center.loc| < center.span ∧ ¬n.state = 2 then
      { n with state := 1 }
    else n

/-- `Tropomyosin._spread_activation` from tm.py: if no site is in state 2
the chain is returned unchanged; otherwise the sites are walked in order
and each one currently in state 2 coerces its neighborhood via
`spreadFrom`, mutations being visible to later iterations (the fold
carries the updated list). -/
def spread_activation (sites : List TmSiteS) : List TmSiteS :=
  if (sites.map (·.state)).foldr max 0 < 2 then sites
  else
    (List.range sites.length).foldl
      (fun acc i =>
        match acc.get? i with
        | some s => if s.state = 2 then spreadFrom s acc else acc
        | Option.none => acc)
      sites

/-- The constants and environment readings a `TmSite`'s rate methods use:
the base forward rates `_k_12 … _k_41`, the equilibrium constants
`_K1 … _K4`, the cooperative multiplier `_coop`, the calcium concentration
`ca` (`10 ** (-pCa)`), and the tropomyosin pool concentrations read from
`self._concentrations`. -/
structure RateConsts where
  k_12 : ℚ
  k_23 : ℚ
  k_34 : ℚ
  k_41 : ℚ
  K1 : ℚ
  K2 : ℚ
  K3 : ℚ
  K4 : ℚ
  coop : ℚ
  ca : ℚ
  free_tm : ℚ
  bound_tm : ℚ
  deriving Repr, DecidableEq

/-- `TmSite._r12` from tm.py, with `stc` the value of
`self.subject_to_cooperativity`.  The source computes a concentration- and
cooperativity-conditioned value and then overwrites it on the next line
with `forward = self._k_12 * self.ca * self._coop`; both assignments are
kept here, shadowing included, so the returned value is the overwrite. -/
def _r12 (c : RateConsts) (stc : Bool) : ℚ :=
  let forward := c.k_12 * c.ca * c.free_tm
  let coop := if stc then c.coop else 1
  let forward := forward * coop
  let forward := c.k_12 * c.ca * c.coop
  forward

/-- `TmSite._r23` from tm.py: the base rate `_k_23`, multiplied by the
cooperative multiplier when the site is subject to cooperativity. -/
def _r23 (c : RateConsts) (stc : Bool) : ℚ :=
  let forward := c.k_23
  let coop := if stc then c.coop else 1
  forward * coop

/-- `TmSite._r34` from tm.py: the base rate `_k_34`, multiplied by the
cooperative multiplier when the site is subject to cooperativity. -/
def _r34 (c : RateConsts) (stc : Bool) : ℚ :=
  let forward := c.k_34
  let coop := if stc then c.coop else 1
  forward * coop

/-! ## Chain-level transition pass (tm.py, class Tropomyosin) -/

/-- One site's step inside `Tropomyosin.transition`'s list comprehension
`[site.transition() for site in self.sites]`: the site keeps its location
and span, its state is replaced by the outcome of `TmSite.transition`. -/
def siteStep (env : TmProbs) (rand : ℚ) (bsBound : Bool) (s : TmSiteS) :
    Option TmSiteS :=
  (tmTransition env s.state bsBound rand).map fun st => { s with state := st }

/-- The individual-transition pass of `Tropomyosin.transition`: every site
transitions in order.  `env`, `rand` and `bound` give, per site index, the
transition probabilities in effect at that site's turn, its uniform draw,
and its binding site's bound flag.  `Option.none` propagates the first
raised exception. -/
def transitionSites (env : ℕ → TmProbs) (rand : ℕ → ℚ) (bound : ℕ → Bool) :
    ℕ → List TmSiteS → Option (List TmSiteS)
  | _, [] => some []
  | i, s :: rest => do
    let s' ← siteStep (env i) (rand i) (bound i) s
    let rest' ← transitionSites env rand bound (i + 1) rest
    pure (s' :: rest')

/-- `Tropomyosin.transition` from tm.py: all sites take their individual
transition, then `_spread_activation` runs once over the chain. -/
def chainTransition (env : ℕ → TmProbs) (rand : ℕ → ℚ) (bound : ℕ → Bool)
    (sites : List TmSiteS) : Option (List TmSiteS) :=
  (transitionSites env rand bound 0 sites).map spread_activation

/-! ## Half-sarcomere scalar state (hs.py, class hs)

The half-sarcomere's filament structure (thick/thin filament objects) is
large and mostly out of scope; the properties below concern the scalar
state the orchestrator owns — lattice spacing, z-line, Poisson ratio,
timestep bookkeeping and the time-dependence overrides — so that part of
`hs` is embedded here.  Real-valued because `update_ls_from_poisson_ratio`
raises a ratio to a real power. -/

/-- The `time_dependence` argument of `hs.__init__`: optional per-timestep
override sequences for the three controllable quantities. -/
structure TimeDependence where
  lattice_spacing : Option (List ℝ)
  z_line : Option (List ℝ)
  actin_permissiveness : Option (List ℝ)

/-- The scalar fields of an `hs` instance that the embedded methods read
and write. -/
structure HsState where
  time_dependence : Option TimeDependence
  initial_z_line : ℝ
  initial_lattice_spacing : ℝ
  poisson_ratio : ℝ
  lattice_spacing : ℝ
  z_line : ℝ
  actin_permissiveness : ℝ
  current_timestep : ℕ

/-- `hs.update_ls_from_poisson_ratio` from hs.py:
`ls = (ls_0 + beta) * (z_0 / (z_0 + dz)) ** nu - beta` with
`beta = 0.5 * (9 + 16)`, `dz = z_line - z_0`. -/
noncomputable def update_ls_from_poisson_ratio (s : HsState) : HsState :=
  let beta : ℝ := 0.5 * (9 + 16)
  let ls_0 := s.initial_lattice_spacing
  let z_0 := s.initial_z_line
  let nu := s.poisson_ratio
  let dz := s.z_line - z_0
  let ls := (ls_0 + beta) * (z_0 / (z_0 + dz)) ^ nu - beta
  { s with lattice_spacing := ls }

/-- The `hs.z_line` property setter: store the new z-line, then update the
lattice spacing from the Poisson ratio. -/
noncomputable def set_z_line (s : HsState) (v : ℝ) : HsState :=
  update_ls_from_poisson_ratio { s with z_line := v }

/-- The `hs.lattice_spacing` property setter: plain assignment. -/
def set_lattice_spacing (s : HsState) (v : ℝ) : HsState :=
  { s with lattice_spacing := v }

/-- The `hs.current_timestep` property setter: apply any time-dependent
override at index `i` (an out-of-range index raises `IndexError`, modelled
as `Option.none`), then record the new index.  The `update_hiding_line`
call at its head touches only the thin filaments' geometry, none of the
fields carried here. -/
noncomputable def set_current_timestep (s : HsState) (i : ℕ) : Option HsState := do
  let s1 ← match s.time_dependence with
    | Option.none => some s
    | some td => do
      let sa ← match td.lattice_spacing with
        | Option.none => some s
        | some l => (l.get? i).map (set_lattice_spacing s)
      let sb ← match td.z_line with
        | Option.none => some sa
        | some l => (l.get? i).map (set_z_line sa)
      match td.actin_permissiveness with
        | Option.none => some sb
        | some l => (l.get? i).map fun v => { sb with actin_permissiveness := v }
  some { s1 with current_timestep := i }

/-- The scalar part of `hs.__init__`: parse index 0 of each provided
override sequence (Python's `[0]` raises `IndexError` on an empty list),
fall back to the defaults `14.0` / `1250` / `0.0` / `1.0` for arguments
passed as `None`, record the initial values, run the `z_line` setter
(which re-derives the lattice spacing), set the actin permissiveness,
and finally run the `current_timestep` setter with index 0.  Filament
construction is omitted: it reads none of the override sequences. -/
noncomputable def hsInit (lattice_spacing z_line poisson actin_permissiveness : Option ℝ)
    (time_dependence : Option TimeDependence) : Option HsState := do
  let lsArg ← match time_dependence with
    | some td =>
      match td.lattice_spacing with
      | some l => (l.get? 0).map some
      | Option.none => some lattice_spacing
    | Option.none => some lattice_spacing
  let zArg ← match time_dependence with
    | some td =>
      match td.z_line with
      | some l => (l.get? 0).map some
      | Option.none => some z_line
    | Option.none => some z_line
  let ls := lsArg.getD 14.0
  let z := zArg.getD 1250
  let nu := poisson.getD 0.0
  let s0 : HsState :=
    { time_dependence := time_dependence
      initial_z_line := z
      initial_lattice_spacing := ls
      poisson_ratio := nu
      lattice_spacing := ls
      z_line := z
      actin_permissiveness := 1.0
      current_timestep := 0 }
  let s1 := set_z_line s0 z
  let apArg ← match time_dependence with
    | some td =>
      match td.actin_permissiveness with
      | some l => (l.get? 0).map some
      | Option.none => some actin_permissiveness
    | Option.none => some actin_permissiveness
  let ap := apArg.getD 1.0
  let s2 := { s1 with actin_permissiveness := ap }
  set_current_timestep s2 0

/-- The index bookkeeping of `hs.timestep`: `self.current_timestep += 1`
runs the `current_timestep` setter on the incremented index.  The
filament transition and settle calls that follow do not touch the fields
carried here. -/
noncomputable def hsTimestep (s : HsState) : Option HsState :=
  set_current_timestep s (s.current_timestep + 1)

/-- The loop of `hs.run`: `n` consecutive timesteps.  A timestep that
raises is caught by `run`, which stops and returns the partial output
with a nonzero status — modelled as `Option.none`. -/
noncomputable def hsRun : ℕ → HsState → Option HsState
  | 0, s => some s
  | n + 1, s => (hsTimestep s).bind (hsRun n)

/-- `hs.ls_to_d10` from hs.py. -/
noncomputable def ls_to_d10 (face_dist : ℝ) : ℝ :=
  let filcenter_dist := face_dist + 0.5 * 9 + 0.5 * 16
  1.5 * filcenter_dist

/-- `hs.d10_to_ls` from hs.py. -/
noncomputable def d10_to_ls (d10 : ℝ) : ℝ :=
  let filcenter_dist := d10 * 2 / 3
  filcenter_dist - 0.5 * 9 - 0.5 * 16

/-! ## The settle loop (hs.py `settle`/`_single_settle`, mf.py
`ThickFilament.settle`)

Node positions are per-filament lists of numbers; each filament's axial
force field is environment to the relaxation code (it sums backbone
spring terms and cross-bridge/titin contributions), carried as a function
from the filament's node positions to its per-node forces. -/

/-- `np.cumsum`. -/
def cumsum (l : List ℚ) : List ℚ :=
  (l.scanl (· + ·) 0).tail

/-- `isolated[-1] *= 2`: double the last element. -/
def doubleLast : List ℚ → List ℚ
  | [] => []
  | [x] => [2 * x]
  | x :: y :: rest => x :: doubleLast (y :: rest)

/-- `ThickFilament.settle(factor)` from mf.py: compute the per-node
forces, convert to displacements `factor * force / k` (doubling the last
node's, which has a spring on only one side), accumulate them along the
filament, add them to the node positions, and return the pre-update
forces.  Result: (new positions, returned forces). -/
def fil_settle (axialforce : List ℚ → List ℚ) (k factor : ℚ)
    (axial : List ℚ) : List ℚ × List ℚ :=
  let forces := axialforce axial
  let isolated := forces.map fun f => factor * f / k
  let isolated2 := doubleLast isolated
  let cumulative := cumsum isolated2
  (List.zipWith (· + ·) axial cumulative, forces)

/-- Modelled from the spec: `ThinFilament.settle` (af.py, the thin
filament implementation, is not among the sources).  Per the spec each
relaxation pass "scales every node's displacement by a fixed damping
factor (0.95) times (local force / local stiffness), summed cumulatively
along the filament's axial ordering from the anchored end" and, like the
thick filament's pass, returns the pre-update force vector used by the
orchestrator for convergence testing. -/
def thin_settle (axialforce : List ℚ → List ℚ) (k factor : ℚ)
    (axial : List ℚ) : List ℚ × List ℚ :=
  let forces := axialforce axial
  let cumulative := cumsum (forces.map fun f => factor * f / k)
  (List.zipWith (· + ·) axial cumulative, forces)

/-- The node positions of the lattice's filaments: one list per thick and
per thin filament. -/
structure SettleState where
  thickAxial : List (List ℚ)
  thinAxial : List (List ℚ)

/-- `np.max(np.abs(l))` over one force vector, with 0 for an empty one. -/
def maxAbs (l : List ℚ) : ℚ :=
  l.foldl (fun m x => max m |x|) 0

/-- `np.max` over a list of force vectors' absolute maxima. -/
def maxAll (ls : List (List ℚ)) : ℚ :=
  (ls.map maxAbs).foldl max 0

/-- The maximum absolute per-node residual axial force over all thick and
thin filament nodes of a state — the quantity `hs._single_settle` returns
for the convergence test. -/
def residMax (thickF thinF : ℕ → List ℚ → List ℚ) (s : SettleState) : ℚ :=
  max (maxAll (s.thickAxial.enum.map fun p => thickF p.1 p.2))
    (maxAll (s.thinAxial.enum.map fun p => thinF p.1 p.2))

/-- `hs._single_settle` from hs.py: settle every thick filament, then
every thin filament (default damping factor 0.95), and return the moved
state together with
`np.max((np.max(np.abs(thick)), np.max(np.abs(thin))))`, the maximum
absolute entry of the force vectors the filaments' settle calls
returned. -/
def single_settle (thickF thinF : ℕ → List ℚ → List ℚ) (thick_k thin_k factor : ℚ)
    (s : SettleState) : SettleState × ℚ :=
  let thickResults := s.thickAxial.enum.map fun p => fil_settle (thickF p.1) thick_k factor p.2
  let thinResults := s.thinAxial.enum.map fun p => thin_settle (thinF p.1) thin_k factor p.2
  let converge := max (maxAll (thickResults.map Prod.snd)) (maxAll (thinResults.map Prod.snd))
  (⟨thickResults.map Prod.fst, thinResults.map Prod.fst⟩, converge)

/-- The convergence limit of `hs.settle`: 0.12 pN. -/
def converge_limit : ℚ := 0.12

/-- The loop of `hs.settle`, for an arbitrary single-settle pass:
`converge = self._single_settle()` then
`while converge > converge_limit: converge = self._single_settle()`.
The source has no iteration cap; `fuel` bounds the recursion here, with
`Option.none` standing for not having terminated within `fuel` passes.
On termination the result carries the final state together with the last
value of `converge`. -/
def settleLoop (pass : SettleState → SettleState × ℚ) (limit : ℚ) :
    ℕ → SettleState → Option (SettleState × ℚ)
  | 0, _ => Option.none
  | fuel + 1, s =>
    let p := pass s
    if p.2 > limit then settleLoop pass limit fuel p.1
    else some p

/-- `hs.settle` from hs.py, with the single-settle pass abstracted. -/
def hs_settle (pass : SettleState → SettleState × ℚ) (fuel : ℕ)
    (s : SettleState) : Option (SettleState × ℚ) :=
  settleLoop pass converge_limit fuel s

/-! ## Specification-side helper definitions

These do not embed source code; they give names to the outcomes the
theorems below establish (amended-claim statements are phrased with
them and compared against the source embeddings above). -/

/-- The forward per-timestep probability `TmSite.transition` selects for
a given state. -/
def fwdProb (env : TmProbs) (s : ℕ) : ℚ :=
  if s = 0 then env.p12 else if s = 1 then env.p23
  else if s = 2 then env.p34 else if s = 3 then env.p41 else 0

/-- The backward per-timestep probability `TmSite.transition` selects for
a given state. -/
def bwdProb (env : TmProbs) (s : ℕ) : ℚ :=
  if s = 0 then env.p14 else if s = 1 then env.p21
  else if s = 2 then env.p32 else if s = 3 then env.p43 else 0

/-- Where a forward step from state `s` lands: the ring successor
`(s + 1) % 4`, except that a landing on 2 is skipped through to 3. -/
def fwdTarget (s : ℕ) : ℕ :=
  let t := (s + 1) % 4
  if t = 2 then 3 else t

/-- Where a backward step from state `s` lands: the ring predecessor
`(s + 3) % 4`, except that a landing on 2 is skipped through to 1. -/
def bwdTarget (s : ℕ) : ℕ :=
  let t := (s + 3) % 4
  if t = 2 then 1 else t

/-- `n` lies within the span of some state-2 site among `centers`. -/
def coveredL (centers : List TmSiteS) (n : TmSiteS) : Bool :=
  centers.any fun c => decide (c.state = 2) && decide (|n.loc - c.loc| < c.span)

/-- The per-site outcome of the cooperative-spread pass over a chain
`sites`: a state-2 site is untouched; any other site within the span of
some state-2 site is set to state 1 (its location and span kept); all
remaining sites are untouched. -/
def spreadOutcome (sites : List TmSiteS) (n : TmSiteS) : TmSiteS :=
  if n.state = 2 then n
  else if coveredL sites n then { n with state := 1 } else n

/-! ## Supporting lemmas -/

/-- The spread outcome keeps state 2 exactly where the input had it. -/
theorem spreadOutcome_state2_iff (C : List TmSiteS) (n : TmSiteS) :
    (spreadOutcome C n).state = 2 ↔ n.state = 2 := by
  unfold spreadOutcome; split_ifs <;> simp_all

/-- A state-2 site is untouched by the spread outcome. -/
theorem spreadOutcome_of_state2 (C : List TmSiteS) (n : TmSiteS) (h : n.state = 2) :
    spreadOutcome C n = n := by
  simp [spreadOutcome, h]

/-- The spread outcome never moves a site. -/
theorem spreadOutcome_loc (C : List TmSiteS) (n : TmSiteS) :
    (spreadOutcome C n).loc = n.loc := by
  unfold spreadOutcome; split_ifs <;> rfl

/-- One `spreadFrom` application on top of accumulated spread outcomes
equals the spread outcome with the new center appended. -/
theorem spreadFrom_pointwise (c : TmSiteS) (hc : c.state = 2) (C : List TmSiteS) (n : TmSiteS) :
    (if |(spreadOutcome C n).loc - c.loc| < c.span ∧ ¬(spreadOutcome C n).state = 2 then
      { spreadOutcome C n with state := 1 }
    else spreadOutcome C n) = spreadOutcome (C ++ [c]) n := by
  by_cases h2 : n.state = 2
  · rw [spreadOutcome_of_state2 _ _ h2, spreadOutcome_of_state2 _ _ h2]
    simp [h2]
  · by_cases hin : |n.loc - c.loc| < c.span
    · have hcov : coveredL (C ++ [c]) n = true := by
        simp [coveredL, List.any_append, hc, hin]
      have hst : ¬(spreadOutcome C n).state = 2 := by
        rw [spreadOutcome_state2_iff]; exact h2
      rw [spreadOutcome_loc]
      simp only [hin, hst, not_false_eq_true, and_self, if_true]
      simp [spreadOutcome, h2, hcov]
      split_ifs <;> simp
    · have hcov : coveredL (C ++ [c]) n = coveredL C n := by
        simp [coveredL, List.any_append, hin]
      rw [spreadOutcome_loc]
      simp only [hin, false_and, if_false]
      simp [spreadOutcome, hcov]

/-- Coverage ignores inserted sites that are not in state 2. -/
theorem coveredL_skip_nonc (C L : List TmSiteS) (c : TmSiteS) (hc : ¬c.state = 2)
    (n : TmSiteS) : coveredL (C ++ c :: L) n = coveredL (C ++ L) n := by
  simp [coveredL, List.any_append, List.any_cons, hc]

/-- The spread outcome ignores inserted sites that are not in state 2. -/
theorem spreadOutcome_skip_nonc (C L : List TmSiteS) (c : TmSiteS) (hc : ¬c.state = 2)
    (n : TmSiteS) : spreadOutcome (C ++ c :: L) n = spreadOutcome (C ++ L) n := by
  simp [spreadOutcome, coveredL_skip_nonc C L c hc]

/-- The mutation loop of `_spread_activation`, unrolled: folding the
per-center step over any index list equals the pointwise spread outcome
with those centers appended. -/
theorem spread_fold_aux (sites : List TmSiteS) (l : List ℕ) :
    ∀ (C : List TmSiteS),
      l.foldl (fun acc i =>
          match acc.get? i with
          | some s => if s.state = 2 then spreadFrom s acc else acc
          | Option.none => acc)
        (sites.map (spreadOutcome C)) =
      sites.map (spreadOutcome (C ++ l.filterMap sites.get?)) := by
  induction l with
  | nil => intro C; simp
  | cons j l ih =>
    intro C
    rw [List.foldl_cons]
    have hget : (sites.map (spreadOutcome C)).get? j = (sites.get? j).map (spreadOutcome C) :=
      List.get?_map _ _ _
    cases hj : sites.get? j with
    | none =>
      rw [List.filterMap_cons_none hj]
      have hn : (sites.map (spreadOutcome C)).get? j = Option.none := by rw [hget, hj]; rfl
      simp only [hn]
      exact ih C
    | some nj =>
      rw [List.filterMap_cons_some hj]
      have hgj : (sites.map (spreadOutcome C)).get? j = some (spreadOutcome C nj) := by
        rw [hget, hj]; rfl
      simp only [hgj]
      by_cases h2 : nj.state = 2
      · have heq : spreadOutcome C nj = nj := spreadOutcome_of_state2 _ _ h2
        rw [heq, if_pos h2]
        have hmap : spreadFrom nj (sites.map (spreadOutcome C)) =
            sites.map (spreadOutcome (C ++ [nj])) := by
          unfold spreadFrom
          rw [List.map_map]
          refine List.map_congr_left ?_
          intro n _
          exact spreadFrom_pointwise nj h2 C n
        rw [hmap, ih (C ++ [nj])]
        congr 1
        rw [List.append_assoc]
        rfl
      · have hne : ¬(spreadOutcome C nj).state = 2 := by
          rw [spreadOutcome_state2_iff]; exact h2
        rw [if_neg hne, ih C]
        refine List.map_congr_left ?_
        intro n _
        exact (spreadOutcome_skip_nonc C _ nj h2 n).symm

/-- Looking every index of a list up in itself gives the list back. -/
theorem filterMap_range_get (l : List TmSiteS) :
    (List.range l.length).filterMap l.get? = l := by
  induction l using List.reverseRecOn with
  | nil => simp
  | append_singleton l y ih =>
    rw [List.length_append, List.length_singleton, List.range_succ, List.filterMap_append]
    have h1 : (List.range l.length).filterMap (l ++ [y]).get? =
        (List.range l.length).filterMap l.get? := by
      apply List.filterMap_congr
      intro j hj
      rw [List.mem_range] at hj
      exact List.get?_append hj
    have h2 : ([l.length].filterMap (l ++ [y]).get?) = [y] := by
      simp [List.get?_concat_length]
    rw [h1, h2, ih]

/-- Every member is at most the `foldr max 0` of its list. -/
theorem mem_le_foldr_max (l : List ℕ) (x : ℕ) (hx : x ∈ l) : x ≤ l.foldr max 0 := by
  induction l with
  | nil => cases hx
  | cons a l ih =>
    rcases List.mem_cons.mp hx with rfl | h
    · exact le_max_left _ _
    · exact le_trans (ih h) (le_max_right _ _)

/-- The spread outcome with no centers changes nothing. -/
theorem map_spreadOutcome_nil (sites : List TmSiteS) :
    sites.map (spreadOutcome []) = sites := by
  have h : ∀ n ∈ sites, spreadOutcome [] n = id n := by
    intro n _; simp [spreadOutcome, coveredL]
  calc sites.map (spreadOutcome []) = sites.map id := List.map_congr_left h
    _ = sites := List.map_id sites

/-- `_spread_activation` computes the pointwise spread outcome against
the chain's own state-2 sites. -/
theorem spread_char_aux (sites : List TmSiteS) :
    spread_activation sites = sites.map (spreadOutcome sites) := by
  unfold spread_activation
  split_ifs with h
  · have hall : ∀ s ∈ sites, ¬s.state = 2 := by
      intro s hs
      have hle : s.state ≤ (sites.map (·.state)).foldr max 0 :=
        mem_le_foldr_max _ _ (List.mem_map_of_mem _ hs)
      omega
    have heq : ∀ n ∈ sites, spreadOutcome sites n = id n := by
      intro n hn
      have hcov : coveredL sites n = false := by
        simp only [coveredL, List.any_eq_false]
        intro c hc
        simp [hall c hc]
      simp [spreadOutcome, hall n hn, hcov]
    calc sites = sites.map id := (List.map_id sites).symm
      _ = sites.map (spreadOutcome sites) := (List.map_congr_left heq).symm
  · have h0 := spread_fold_aux sites (List.range sites.length) []
    rw [map_spreadOutcome_nil, List.nil_append, filterMap_range_get] at h0
    exact h0

/-- On a chain with no state-2 site, `_spread_activation` is the
identity. -/
theorem spread_id_aux (sites : List TmSiteS) (h : ∀ s ∈ sites, ¬s.state = 2) :
    spread_activation sites = sites := by
  rw [spread_char_aux]
  have heq : ∀ n ∈ sites, spreadOutcome sites n = id n := by
    intro n hn
    have hcov : coveredL sites n = false := by
      simp only [coveredL, List.any_eq_false]
      intro c hc
      simp [h c hc]
    simp [spreadOutcome, h n hn, hcov]
  calc sites.map (spreadOutcome sites) = sites.map id := List.map_congr_left heq
    _ = sites := List.map_id sites

/-- A normally-returning `TmSite.transition` never yields state 2, and
always yields a state below 4 (the final assertion's bound). -/
theorem tm_some_aux (env : TmProbs) (s : ℕ) (b : Bool) (r : ℚ) (s' : ℕ)
    (h : tmTransition env s b r = some s') : ¬s' = 2 ∧ s' < 4 := by
  simp only [tmTransition, forward_backward, Option.bind] at h
  split_ifs at h <;> simp_all <;> omega

/-- `TmSite.transition` from a state in {0, 1, 3} always returns
normally, landing as selected by the draw, with the state-2 skip
applied. -/
theorem tm013_aux (env : TmProbs) (s : ℕ) (b : Bool) (r : ℚ)
    (hs : s = 0 ∨ s = 1 ∨ s = 3) :
    tmTransition env s b r =
      some (if s = 3 ∧ b then 3
        else if r < fwdProb env s then fwdTarget s
        else if r > 1 - bwdProb env s then bwdTarget s
        else s) := by
  rcases hs with rfl | rfl | rfl
  · simp only [fwdProb, bwdProb, fwdTarget, bwdTarget]
    norm_num
    simp only [tmTransition, forward_backward]
    norm_num
    split_ifs <;> simp_all
  · simp only [fwdProb, bwdProb, fwdTarget, bwdTarget]
    norm_num
    simp only [tmTransition, forward_backward]
    norm_num
    split_ifs <;> simp_all
  · cases b with
    | true =>
      simp only [tmTransition]
      norm_num
    | false =>
      simp only [fwdProb, bwdProb, fwdTarget, bwdTarget]
      norm_num
      simp only [tmTransition, forward_backward]
      norm_num
      split_ifs <;> simp_all

/-- `TmSite.transition` from state 2: a forward draw gives 3, a backward
draw gives 1, and the no-transition draw raises (the state-skip dict has
no `"none"` key). -/
theorem tm2_aux (env : TmProbs) (b : Bool) (r : ℚ) :
    tmTransition env 2 b r =
      (if r < env.p34 then some 3
       else if r > 1 - env.p32 then some 1
       else Option.none) := by
  simp only [tmTransition, forward_backward]
  norm_num
  split_ifs <;> simp_all

/-- The individual-transition pass preserves the chain's length, each
site's location and span, and relates each site's new state to its own
`TmSite.transition` call. -/
theorem transitionSites_spec_aux (env : ℕ → TmProbs) (rand : ℕ → ℚ) (bound : ℕ → Bool)
    (sites : List TmSiteS) :
    ∀ (k : ℕ) (ts : List TmSiteS),
      transitionSites env rand bound k sites = some ts →
      ts.length = sites.length ∧
      ∀ i (hi : i < sites.length) (hi' : i < ts.length),
        (ts.get ⟨i, hi'⟩).loc = (sites.get ⟨i, hi⟩).loc ∧
        (ts.get ⟨i, hi'⟩).span = (sites.get ⟨i, hi⟩).span ∧
        tmTransition (env (k + i)) ((sites.get ⟨i, hi⟩).state) (bound (k + i)) (rand (k + i)) =
          some ((ts.get ⟨i, hi'⟩).state) := by
  induction sites with
  | nil =>
    intro k ts h
    simp only [transitionSites] at h
    cases h
    exact ⟨rfl, fun i hi => absurd hi (by simp)⟩
  | cons s rest ih =>
    intro k ts h
    simp only [transitionSites, siteStep, bind, Option.pure_def, Option.some.injEq,
      Option.bind_eq_some, Option.map_eq_some'] at h
    obtain ⟨s', ⟨st, hst, rfl⟩, rest', hrest', rfl⟩ := h
    obtain ⟨hlen, hidx⟩ := ih (k + 1) rest' hrest'
    refine ⟨by simp [hlen], ?_⟩
    intro i hi hi'
    cases i with
    | zero => simpa using hst
    | succ i =>
      have hi₁ : i < rest.length := by simpa using hi
      have hi₁' : i < rest'.length := by simpa using hi'
      have hx := hidx i hi₁ hi₁'
      have hk : k + 1 + i = k + (i + 1) := by omega
      simpa [hk] using hx

/-- The individual-transition pass returns normally whenever every site's
state is in {0, 1, 3}. -/
theorem transitionSites_total_aux (env : ℕ → TmProbs) (rand : ℕ → ℚ) (bound : ℕ → Bool) :
    ∀ (sites : List TmSiteS) (k : ℕ),
      (∀ s ∈ sites, s.state = 0 ∨ s.state = 1 ∨ s.state = 3) →
      ∃ ts, transitionSites env rand bound k sites = some ts := by
  intro sites
  induction sites with
  | nil => exact fun k _ => ⟨[], rfl⟩
  | cons s rest ih =>
    intro k h
    obtain ⟨ts, hts⟩ := ih (k + 1) fun x hx => h x (List.mem_cons_of_mem _ hx)
    have hv := tm013_aux (env k) s.state (bound k) (rand k) (h s (List.mem_cons_self _ _))
    refine ⟨{ s with state := (if s.state = 3 ∧ bound k = true then 3
        else if rand k < fwdProb (env k) s.state then fwdTarget s.state
        else if rand k > 1 - bwdProb (env k) s.state then bwdTarget s.state
        else s.state) } :: ts, ?_⟩
    simp [transitionSites, siteStep, hv, hts, bind]

/-- The `hs.settle` loop, on termination, returns the last pass's result
with the convergence value it tested at or below the limit. -/
theorem settleLoop_le_aux (pass : SettleState → SettleState × ℚ) (limit : ℚ) :
    ∀ (fuel : ℕ) (s out : SettleState) (c : ℚ),
      settleLoop pass limit fuel s = some (out, c) →
      c ≤ limit ∧ ∃ sp, pass sp = (out, c) := by
  intro fuel
  induction fuel with
  | zero => intro s out c h; simp [settleLoop] at h
  | succ n ih =>
    intro s out c h
    simp only [settleLoop] at h
    split_ifs at h with hgt
    · exact ih _ _ _ h
    · have hps : pass s = (out, c) := Option.some.inj h
      refine ⟨?_, s, hps⟩
      rw [hps] at hgt
      simpa using hgt

/-! ## The claims -/

/-- C1 (counterexample): the cooperative-spread pass can LOWER a site's
state: on the two-site chain with a state-2 site at location 0 and a
state-3 site at location 5, both with span 10, the pass drops the
state-3 site to state 1 — contradicting "never lowers any site's state
and never changes a site already at state 2 or 3". -/
theorem spread_activation_lowers_state_three :
    spread_activation [⟨2, 0, 10⟩, ⟨3, 5, 10⟩] = [⟨2, 0, 10⟩, ⟨1, 5, 10⟩] ∧ (1 : ℕ) < 3 := by
  constructor
  · norm_num [spread_activation, spreadFrom, List.range_succ]
  · omega

/-- C1 (amended): the cooperative-spread pass never changes a state-2
site, and sets EVERY other site lying within the span of some state-2
site to state 1 — raising state-0 and leaving state-1 sites at 1, but
also lowering state-3 sites to 1; sites within no state-2 site's span
keep their state, and no site's location or span changes.  Formally the
pass equals the pointwise `spreadOutcome` map. -/
theorem spread_activation_characterization (sites : List TmSiteS) :
    spread_activation sites = sites.map (spreadOutcome sites) :=
  spread_char_aux sites

/-- C2 (counterexample): with forward probability 1/2 for the 1→2 edge
and draw 0 (below it), an unbound site in state 1 lands in state 3, not
in `(1 + 1) % 4 = 2` as the claim's ring rule states. -/
theorem tmTransition_forward_from_one_skips_two :
    tmTransition ⟨0, 0, 1/2, 0, 0, 0, 0, 0⟩ 1 false 0 = some 3 ∧ ¬(3 = (1 + 1) % 4) := by
  constructor
  · norm_num [tmTransition, forward_backward]
  · omega

/-- C2 (amended): for an unbound site in state s ∈ {0, 1, 3}, a draw
below the forward probability advances along the ring with state 2
skipped (0→1, 1→3, 3→0), a draw above 1 minus the backward probability
retreats with state 2 skipped (0→3, 1→0, 3→1), and any other draw leaves
the state unchanged; the per-edge probabilities are the
`P = 1 − exp(−rate·Δt)` conversions of the state's selected rates,
carried in `env`. -/
theorem tmTransition_ring_step_with_skip (env : TmProbs) (s : ℕ) (r : ℚ)
    (hs : s = 0 ∨ s = 1 ∨ s = 3) :
    tmTransition env s false r =
      some (if r < fwdProb env s then fwdTarget s
        else if r > 1 - bwdProb env s then bwdTarget s
        else s) := by
  have h := tm013_aux env s false r hs
  simpa using h

/-- C2 witness: the amended rule applied at state 0 with all-zero
probabilities and draw 1/2 leaves the state at 0. -/
theorem tmTransition_ring_step_with_skip_witness :
    tmTransition ⟨0, 0, 0, 0, 0, 0, 0, 0⟩ 0 false (1/2) = some 0 := by
  have h := tmTransition_ring_step_with_skip ⟨0, 0, 0, 0, 0, 0, 0, 0⟩ 0 (1/2) (Or.inl rfl)
  rw [h]
  norm_num [fwdProb, bwdProb]

/-- C3: whenever `hs.settle` terminates, the value its convergence test
is taken over — the maximum absolute per-node residual force the final
single-settle pass reported — is at most the 0.12 pN limit; and the
value `hs._single_settle` reports is exactly `residMax`, the maximum
absolute per-node axial force over all thick and thin filament nodes at
the positions the pass started from. -/
theorem settle_returns_below_converge_limit :
    (∀ (pass : SettleState → SettleState × ℚ) (fuel : ℕ) (s out : SettleState) (c : ℚ),
      hs_settle pass fuel s = some (out, c) →
      c ≤ converge_limit ∧ ∃ sp, pass sp = (out, c)) ∧
    (∀ (thickF thinF : ℕ → List ℚ → List ℚ) (tk nk factor : ℚ) (st : SettleState),
      (single_settle thickF thinF tk nk factor st).2 = residMax thickF thinF st) := by
  constructor
  · intro pass fuel s out c h
    exact settleLoop_le_aux pass converge_limit fuel s out c h
  · intro thickF thinF tk nk factor st
    simp only [single_settle, residMax, List.map_map]
    rfl

/-- C3 witness: on an empty lattice with zero force fields, one pass
converges with residual 0 ≤ 0.12. -/
theorem settle_returns_below_converge_limit_witness :
    (0 : ℚ) ≤ converge_limit ∧
    ∃ sp, single_settle (fun _ _ => []) (fun _ _ => []) 1 1 (95/100) sp =
      (⟨[], []⟩, 0) := by
  have h : hs_settle (single_settle (fun _ _ => []) (fun _ _ => []) 1 1 (95/100)) 1
      ⟨[], []⟩ = some (⟨[], []⟩, 0) := by
    norm_num [hs_settle, settleLoop, single_settle, maxAll, converge_limit]
  exact (settle_returns_below_converge_limit).1 _ 1 ⟨[], []⟩ ⟨[], []⟩ 0 h

/-- C4 (counterexample): construction does NOT fail fast on an override
sequence shorter than the run length: with a z-line override sequence of
length 1, `hs.__init__` succeeds, and a 2-timestep run then fails (the
`current_timestep` setter's out-of-range indexing at step 2). -/
theorem hsInit_accepts_short_override :
    (hsInit Option.none Option.none Option.none Option.none
      (some ⟨Option.none, some [1250], Option.none⟩)).isSome = true ∧
    (hsInit Option.none Option.none Option.none Option.none
      (some ⟨Option.none, some [1250], Option.none⟩)).bind (hsRun 2) = Option.none :=
  ⟨rfl, rfl⟩

/-- C4 (amended): construction performs no length validation against the
run length (which it does not know): it reads only index 0 of each
provided override sequence, succeeding whenever each provided sequence
is nonempty; a sequence shorter than the run length instead causes the
failure to surface during the run, when the `current_timestep` setter
first indexes past the sequence's end. -/
theorem hsInit_reads_only_index_zero :
    (∀ (lsa za nua apa : Option ℝ) (td : TimeDependence),
      (∀ l, td.lattice_spacing = some l → ¬l = []) →
      (∀ l, td.z_line = some l → ¬l = []) →
      (∀ l, td.actin_permissiveness = some l → ¬l = []) →
      (hsInit lsa za nua apa (some td)).isSome = true) ∧
    (∀ (s : HsState) (td : TimeDependence) (l : List ℝ) (i : ℕ),
      s.time_dependence = some td → td.z_line = some l → l.length ≤ i →
      set_current_timestep s i = Option.none) := by
  constructor
  · intro lsa za nua apa td h1 h2 h3
    obtain ⟨ols, oz, oap⟩ := td
    cases ols with
    | none =>
      cases oz with
      | none =>
        cases oap with
        | none => simp [hsInit, set_current_timestep, set_z_line,
            update_ls_from_poisson_ratio, set_lattice_spacing, bind]
        | some lap =>
          obtain ⟨x, xs, rfl⟩ := List.exists_cons_of_ne_nil (h3 lap rfl)
          simp [hsInit, set_current_timestep, set_z_line,
            update_ls_from_poisson_ratio, set_lattice_spacing, bind]
      | some lz =>
        obtain ⟨z, zs, rfl⟩ := List.exists_cons_of_ne_nil (h2 lz rfl)
        cases oap with
        | none => simp [hsInit, set_current_timestep, set_z_line,
            update_ls_from_poisson_ratio, set_lattice_spacing, bind]
        | some lap =>
          obtain ⟨x, xs, rfl⟩ := List.exists_cons_of_ne_nil (h3 lap rfl)
          simp [hsInit, set_current_timestep, set_z_line,
            update_ls_from_poisson_ratio, set_lattice_spacing, bind]
    | some lls =>
      obtain ⟨y, ys, rfl⟩ := List.exists_cons_of_ne_nil (h1 lls rfl)
      cases oz with
      | none =>
        cases oap with
        | none => simp [hsInit, set_current_timestep, set_z_line,
            update_ls_from_poisson_ratio, set_lattice_spacing, bind]
        | some lap =>
          obtain ⟨x, xs, rfl⟩ := List.exists_cons_of_ne_nil (h3 lap rfl)
          simp [hsInit, set_current_timestep, set_z_line,
            update_ls_from_poisson_ratio, set_lattice_spacing, bind]
      | some lz =>
        obtain ⟨z, zs, rfl⟩ := List.exists_cons_of_ne_nil (h2 lz rfl)
        cases oap with
        | none => simp [hsInit, set_current_timestep, set_z_line,
            update_ls_from_poisson_ratio, set_lattice_spacing, bind]
        | some lap =>
          obtain ⟨x, xs, rfl⟩ := List.exists_cons_of_ne_nil (h3 lap rfl)
          simp [hsInit, set_current_timestep, set_z_line,
            update_ls_from_poisson_ratio, set_lattice_spacing, bind]
  · intro s td l i hs hz hlen
    have hget : l[i]? = Option.none := List.getElem?_eq_none hlen
    obtain ⟨ols, oz, oap⟩ := td
    cases hz
    simp only [set_current_timestep, hs, bind]
    cases ols <;> simp [hget]

/-- C4 witness: construction succeeds on nonempty override sequences. -/
theorem hsInit_reads_only_index_zero_witness :
    (hsInit Option.none Option.none Option.none Option.none
      (some ⟨some [14], some [1250, 1300], Option.none⟩)).isSome = true :=
  hsInit_reads_only_index_zero.1 Option.none Option.none Option.none Option.none
    ⟨some [14], some [1250, 1300], Option.none⟩
    (fun l hl => by cases hl; simp) (fun l hl => by cases hl; simp)
    (fun l hl => by cases hl)

/-- C5 (counterexample): `_r12` ignores the cooperativity condition: for
a single-site chain with no state-2 site (not subject to cooperativity),
with base rate k_12 = 1, ca = 1, free_tm = 1 and multiplier 100, the
returned rate is 100, not the unscaled base value 1 — the conditional
scaling computed first in `_r12` is dead code, overwritten by the
unconditional `k_12 * ca * coop`. -/
theorem r12_scaled_without_cooperativity :
    subject_to_cooperativity [⟨0, 0, 1⟩] ⟨0, 0, 1⟩ = false ∧
    _r12 ⟨1, 1, 1, 1, 1, 1, 1, 1, 100, 1, 1, 1⟩ false = 100 ∧ ¬(100 : ℚ) = 1 := by
  refine ⟨?_, ?_, by norm_num⟩
  · norm_num [subject_to_cooperativity]
  · norm_num [_r12]

/-- C5 (amended): `_r12` ALWAYS returns `k_12 * ca * coop`, the
cooperativity multiplier applied unconditionally and the concentration
factor dropped (the conditional computation before it is dead code);
`_r23` and `_r34` return their base rates times the multiplier exactly
when the site is subject to cooperativity and the unscaled base
otherwise; and a site is subject to cooperativity exactly when ANY site
of the chain within the site's span — the site itself included, not
only other sites — is in state 2. -/
theorem forward_rate_cooperativity_scaling (c : RateConsts) (stc : Bool) :
    _r12 c stc = c.k_12 * c.ca * c.coop ∧
    _r23 c stc = c.k_23 * (if stc then c.coop else 1) ∧
    _r34 c stc = c.k_34 * (if stc then c.coop else 1) ∧
    (∀ (chain : List TmSiteS) (s : TmSiteS),
      subject_to_cooperativity chain s = true ↔
        ∃ n ∈ chain, |n.loc - s.loc| < s.span ∧ n.state = 2) := by
  refine ⟨rfl, rfl, rfl, ?_⟩
  intro chain s
  simp [subject_to_cooperativity, List.any_eq_true]

/-- C5 witness: `_r12` at k_12 = 2, ca = 11, coop = 7 with the
cooperativity flag off still returns 2 · 11 · 7. -/
theorem forward_rate_cooperativity_scaling_witness :
    _r12 ⟨2, 3, 4, 5, 1, 1, 1, 1, 7, 11, 1, 1⟩ false = 2 * 11 * 7 :=
  (forward_rate_cooperativity_scaling ⟨2, 3, 4, 5, 1, 1, 1, 1, 7, 11, 1, 1⟩ false).1

/-- C6: if the chain's full per-timestep pass (individual transitions
followed by the cooperative spread) completes, a site that entered it in
state 3 with its binding site bound is still in state 3 afterwards: its
own transition returns early, and since no successful transition ever
leaves any site in state 2, the spread pass cannot touch it. -/
theorem bound_state_three_site_stays_three (env : ℕ → TmProbs) (rand : ℕ → ℚ)
    (bound : ℕ → Bool) (sites out : List TmSiteS) (i : ℕ) (hi : i < sites.length)
    (h : chainTransition env rand bound sites = some out)
    (h3 : (sites.get ⟨i, hi⟩).state = 3) (hb : bound i = true) :
    ∃ ho : i < out.length, (out.get ⟨i, ho⟩).state = 3 := by
  unfold chainTransition at h
  rw [Option.map_eq_some'] at h
  obtain ⟨ts, hts, rfl⟩ := h
  obtain ⟨hlen, hidx⟩ := transitionSites_spec_aux env rand bound sites 0 ts hts
  have hi' : i < ts.length := by omega
  obtain ⟨-, -, htm⟩ := hidx i hi hi'
  rw [h3] at htm
  simp only [Nat.zero_add] at htm
  rw [hb] at htm
  have h33 : tmTransition (env i) 3 true (rand i) = some 3 := by
    simp [tmTransition]
  rw [h33] at htm
  have hts3 : (ts.get ⟨i, hi'⟩).state = 3 := (Option.some.inj htm).symm
  have hno2 : ∀ s' ∈ ts, ¬s'.state = 2 := by
    intro s' hs'
    obtain ⟨⟨j, hj⟩, rfl⟩ := List.mem_iff_get.mp hs'
    have hj' : j < sites.length := by omega
    obtain ⟨-, -, htmj⟩ := hidx j hj' hj
    exact (tm_some_aux _ _ _ _ _ htmj).1
  rw [spread_id_aux ts hno2]
  exact ⟨hi', hts3⟩

/-- C6 witness: a singleton chain holding a bound state-3 site keeps it
in state 3 through a full pass. -/
theorem bound_state_three_site_stays_three_witness :
    ∃ ho : 0 < (spread_activation [⟨3, 0, 1⟩]).length,
      ((spread_activation [⟨3, 0, 1⟩]).get ⟨0, ho⟩).state = 3 := by
  have hc : chainTransition (fun _ => ⟨0, 0, 0, 0, 0, 0, 0, 0⟩) (fun _ => 1/2)
      (fun _ => true) [⟨3, 0, 1⟩] = some (spread_activation [⟨3, 0, 1⟩]) := by
    norm_num [chainTransition, transitionSites, siteStep, tmTransition, bind]
  exact bound_state_three_site_stays_three _ _ _ [⟨3, 0, 1⟩] _ 0 (by norm_num) hc rfl rfl

/-- C7 (counterexample): a transition call from the valid state 2 with
the valid draw 1/2 and zero edge probabilities raises (`KeyError` from
the state-skip dict on a no-transition draw) instead of returning
normally. -/
theorem tmTransition_state_two_raises :
    tmTransition ⟨0, 0, 0, 0, 0, 0, 0, 0⟩ 2 false (1/2) = Option.none ∧
    (0 : ℚ) ≤ 1/2 ∧ (1/2 : ℚ) < 1 := by
  refine ⟨?_, by norm_num, by norm_num⟩
  norm_num [tmTransition, forward_backward]

/-- C7 (amended): from a state in {0, 1, 3} every transition call
returns normally with a state again in {0, 1, 3}; from state 2 the call
returns state 3 on a forward draw, state 1 on a backward draw, and
raises `KeyError` on a no-transition draw; and every normally-returning
call yields a state below 4, so the closing in-range assertion never
fails. -/
theorem tmTransition_output_valid (env : TmProbs) (s : ℕ) (b : Bool) (r : ℚ) :
    ((s = 0 ∨ s = 1 ∨ s = 3) →
      ∃ s', tmTransition env s b r = some s' ∧ (s' = 0 ∨ s' = 1 ∨ s' = 3)) ∧
    tmTransition env 2 b r =
      (if r < env.p34 then some 3 else if r > 1 - env.p32 then some 1 else Option.none) ∧
    (∀ s', tmTransition env s b r = some s' → s' < 4) := by
  refine ⟨?_, tm2_aux env b r, fun s' h => (tm_some_aux env s b r s' h).2⟩
  intro hs
  refine ⟨_, tm013_aux env s b r hs, ?_⟩
  have h2 := tm_some_aux env s b r _ (tm013_aux env s b r hs)
  omega

/-- C7 witness: from state 1 with zero probabilities and draw 1/2 the
call returns normally into {0, 1, 3}. -/
theorem tmTransition_output_valid_witness :
    ∃ s', tmTransition ⟨0, 0, 0, 0, 0, 0, 0, 0⟩ 1 false (1/2) = some s' ∧
      (s' = 0 ∨ s' = 1 ∨ s' = 3) :=
  (tmTransition_output_valid ⟨0, 0, 0, 0, 0, 0, 0, 0⟩ 1 false (1/2)).1 (Or.inr (Or.inl rfl))

/-- C8: on a chain whose sites are all in {0, 1, 3} — as they are at
construction, where every site starts at 0 — no site is subject to
cooperativity, the individual-transition pass always returns normally
with every site again in {0, 1, 3}, and the cooperative-spread pass is
the identity (its state-2 trigger never fires), so state 2 is never
observed between chain transitions. -/
theorem chain_step_avoids_state_two (env : ℕ → TmProbs) (rand : ℕ → ℚ) (bound : ℕ → Bool)
    (sites : List TmSiteS)
    (h : ∀ s ∈ sites, s.state = 0 ∨ s.state = 1 ∨ s.state = 3) :
    (∀ s, subject_to_cooperativity sites s = false) ∧
    ∃ ts, transitionSites env rand bound 0 sites = some ts ∧
      (∀ s' ∈ ts, s'.state = 0 ∨ s'.state = 1 ∨ s'.state = 3) ∧
      spread_activation ts = ts ∧
      chainTransition env rand bound sites = some ts := by
  constructor
  · intro s
    simp only [subject_to_cooperativity, List.any_eq_false]
    intro c hc
    have hcs := h c hc
    simp only [Bool.and_eq_true, decide_eq_true_eq, not_and]
    intro _
    omega
  · obtain ⟨ts, hts⟩ := transitionSites_total_aux env rand bound sites 0 h
    obtain ⟨hlen, hidx⟩ := transitionSites_spec_aux env rand bound sites 0 ts hts
    have hmem : ∀ s' ∈ ts, s'.state = 0 ∨ s'.state = 1 ∨ s'.state = 3 := by
      intro s' hs'
      obtain ⟨⟨j, hj⟩, rfl⟩ := List.mem_iff_get.mp hs'
      have hj' : j < sites.length := by omega
      obtain ⟨-, -, htmj⟩ := hidx j hj' hj
      have h4 := tm_some_aux _ _ _ _ _ htmj
      omega
    have hid : spread_activation ts = ts :=
      spread_id_aux ts fun s' hs' => by have h4 := hmem s' hs'; omega
    exact ⟨ts, hts, hmem, hid, by simp [chainTransition, hts, hid]⟩

/-- C8 witness: a singleton state-0 chain steps normally, stays in
{0, 1, 3}, and leaves the spread pass idle. -/
theorem chain_step_avoids_state_two_witness :
    (∀ s, subject_to_cooperativity [(⟨0, 0, 1⟩ : TmSiteS)] s = false) ∧
    ∃ ts, transitionSites (fun _ => ⟨0, 0, 0, 0, 0, 0, 0, 0⟩) (fun _ => 1/2)
        (fun _ => false) 0 [⟨0, 0, 1⟩] = some ts ∧
      (∀ s' ∈ ts, s'.state = 0 ∨ s'.state = 1 ∨ s'.state = 3) ∧
      spread_activation ts = ts ∧
      chainTransition (fun _ => ⟨0, 0, 0, 0, 0, 0, 0, 0⟩) (fun _ => 1/2)
        (fun _ => false) [⟨0, 0, 1⟩] = some ts :=
  chain_step_avoids_state_two _ _ _ _ (by norm_num)

/-- C9: assigning the z-line always recomputes the lattice spacing as
`ls = (ls0 + β)·(z0/(z0+Δz))^ν − β` with β = 12.5 nm, ls0/z0 the values
recorded at construction, ν the Poisson ratio and Δz the new z-line
minus z0; and for every ν, when the new z-line equals z0 (Δz = 0, z0
nonzero) the lattice spacing is exactly the initial one. -/
theorem z_line_setter_poisson_law (s : HsState) (v : ℝ) :
    (set_z_line s v).lattice_spacing =
      (s.initial_lattice_spacing + 12.5) *
        (s.initial_z_line / (s.initial_z_line + (v - s.initial_z_line))) ^ s.poisson_ratio
      - 12.5 ∧
    (¬s.initial_z_line = 0 →
      (set_z_line s s.initial_z_line).lattice_spacing = s.initial_lattice_spacing) := by
  constructor
  · simp only [set_z_line, update_ls_from_poisson_ratio]
    norm_num
  · intro h
    simp only [set_z_line, update_ls_from_poisson_ratio]
    rw [sub_self, add_zero, div_self h, Real.one_rpow]
    ring

/-- C9 witness: at z0 = 1250 and ν = 1/2, re-assigning z-line = z0 gives
back the initial lattice spacing 14. -/
theorem z_line_setter_poisson_law_witness :
    (set_z_line ⟨Option.none, 1250, 14, 1/2, 14, 1250, 1, 0⟩ 1250).lattice_spacing = 14 := by
  have h := (z_line_setter_poisson_law ⟨Option.none, 1250, 14, 1/2, 14, 1250, 1, 0⟩ 1250).2
    (by norm_num)
  simpa using h

/-- C10: the two static lattice-spacing conversions round-trip exactly:
`d10_to_ls (ls_to_d10 x) = x` for every x > −12.5 (they are mutually
inverse affine maps, so the bound is not even needed). -/
theorem d10_ls_roundtrip (x : ℝ) (h : x > -12.5) : d10_to_ls (ls_to_d10 x) = x := by
  simp only [d10_to_ls, ls_to_d10]
  ring

/-- C10 witness: the round trip at the default lattice spacing 14 nm. -/
theorem d10_ls_roundtrip_witness : d10_to_ls (ls_to_d10 14) = 14 :=
  d10_ls_roundtrip 14 (by norm_num)

end Multifil
